import Mathlib

/-!
# Theremin Hero 2 — verification of the FM synthesis core

Shallow embedding of the two C source files:

* `theremingame.c` — the game proper: the FM oscillator state (`wavedata`
  struct plus the module-level globals `instr`, `colorblind`, `mute`,
  `quit`), the audio callback `generateWaveform`, the initialisation
  `createWant`, and the key handler `checkKey`.
* `sdltest.c` — the standalone audio test: its own `wavedata` struct and
  its own `generateWaveform`, which (unlike the game's) has the
  modulator-amplitude decay active.

C `double`/`float` arithmetic is idealised as exact real arithmetic (`ℝ`);
C `int` is `ℤ`; the C library `fmod` is embedded as `cfmod` below with
truncated division, exactly as ISO C specifies it.  The audio callback
receives a byte count `len` and derives the sample count as
`len / sizeof(sample)`; the core is embedded as a function of the sample
count (`size`), with the byte-level wrapper given separately.
-/

namespace Theremin

/-- TAU from theremingame.c: `#define TAU (2*M_PI)`. -/
noncomputable def TAU : ℝ := 2 * Real.pi

/-- Truncation toward zero of a real number, the rounding used by C's
`fmod` (`fmod(x, y) = x - y * trunc(x / y)`). -/
noncomputable def rtrunc (x : ℝ) : ℤ := if 0 ≤ x then ⌊x⌋ else ⌈x⌉

/-- C's `fmod`: `x - y * trunc (x / y)`. -/
noncomputable def cfmod (x y : ℝ) : ℝ := x - y * rtrunc (x / y)

/-- The global pitch table `pitches[]` of theremingame.c, indexed by the C
`int` `pitchindex`.  Indices outside `0..7` are out of bounds in C; the
embedding maps them to `0`. -/
noncomputable def pitches (i : ℤ) : ℝ :=
  if i = 0 then 261.63
  else if i = 1 then 293.66
  else if i = 2 then 329.63
  else if i = 3 then 349.23
  else if i = 4 then 392.00
  else if i = 5 then 440.00
  else if i = 6 then 493.88
  else if i = 7 then 523.25
  else 0

/-- The mutable program state of theremingame.c: the `wavedata` struct
(`carrier_phase`, `modulator_phase`, `modulator_amplitude`, `pitchindex`,
`modulator_pitch`) together with the module-level globals `instr`,
`colorblind`, `mute` and `quit`. -/
@[ext]
structure GameState where
  carrier_phase : ℝ
  modulator_phase : ℝ
  modulator_amplitude : ℝ
  pitchindex : ℤ
  modulator_pitch : ℤ
  instr : ℝ
  colorblind : ℤ
  mute : ℤ
  quit : ℤ

/-- Carrier pitch read at the start of `generateWaveform`:
`double c_pitch = pitches[wave_data->pitchindex]`. -/
noncomputable def c_pitch (st : GameState) : ℝ := pitches st.pitchindex

/-- Modulator pitch, recomputed at render time from the global `instr` and
the carrier pitch: `double m_pitch = instr*c_pitch`. -/
noncomputable def m_pitch (st : GameState) : ℝ := st.instr * c_pitch st

/-- The value stored into `dest[i]` by the fill loop of theremingame.c's
`generateWaveform`:
`sin(m_amplitude * sin(m_pitch*TAU*i/48000 + m_phase) + c_pitch*TAU*i/48000 + c_phase) * 32767`. -/
noncomputable def sample (st : GameState) (i : ℕ) : ℝ :=
  Real.sin (st.modulator_amplitude *
      Real.sin (m_pitch st * TAU * i / 48000 + st.modulator_phase)
    + c_pitch st * TAU * i / 48000 + st.carrier_phase) * 32767

/-- theremingame.c's `generateWaveform`, as a function of the sample count
`size`: returns the filled buffer and the updated state.  The fill loop
writes `sample st i` for `i = 0 .. size-1`; afterwards both phases are
reduced with `fmod(..., TAU)`.  The modulator-amplitude decay that follows
in the source is commented out, so `modulator_amplitude` (and every other
field) is left unchanged. -/
noncomputable def generateWaveform (st : GameState) (size : ℕ) :
    List ℝ × GameState :=
  ((List.range size).map (sample st),
   { st with
     carrier_phase := cfmod (c_pitch st * TAU * size / 48000 + st.carrier_phase) TAU
     modulator_phase := cfmod (m_pitch st * TAU * size / 48000 + st.modulator_phase) TAU })

/-- The byte-level callback interface: SDL passes a byte count `len`, and
the source computes `int size = len/sizeof(short)` with `sizeof(short) = 2`. -/
noncomputable def generateWaveformBytes (st : GameState) (len : ℕ) :
    List ℝ × GameState :=
  generateWaveform st (len / 2)

/-- Folding `generateWaveform` over a list of buffer sizes: the state after
a sequence of render calls. -/
noncomputable def renderCalls (st : GameState) : List ℕ → GameState
  | [] => st
  | size :: rest => renderCalls (generateWaveform st size).2 rest

/-- The program state right after startup: `createWant` sets
`pitchindex = 0`, `modulator_pitch = instr*440` (with the initial
`instr = PIANO = 2`, this is `880`), both phases `0.0` and
`modulator_amplitude = 0.4`; the globals carry their initialisers
`instr = PIANO`, `colorblind = 0`, `mute = 0`, `quit = 0`. -/
noncomputable def initState : GameState where
  carrier_phase := 0
  modulator_phase := 0
  modulator_amplitude := 0.4
  pitchindex := 0
  modulator_pitch := 880
  instr := 2
  colorblind := 0
  mute := 0
  quit := 0

/-- Keys that `checkKey` distinguishes; every other SDL keycode falls into
`other`. -/
inductive Key where
  | escape | q | up | down | backspace | i | m | other
deriving DecidableEq

/-- Function `updateWavedata` from theremingame.c: store a new pitch
index. -/
noncomputable def updateWavedata (st : GameState) (newPitch : ℤ) : GameState :=
  { st with pitchindex := newPitch }

/-- Function `checkKey` from theremingame.c.  The local `int pitchindex` is read
once at entry; the branches follow the source's `if`/`else if` chain.  C's
`%` is truncated division remainder, embedded as `Int.tmod`. -/
noncomputable def checkKey (key : Key) (st : GameState) : GameState :=
  if key = Key.escape ∨ key = Key.q then
    { st with quit := 1 }
  else if key = Key.up ∧ st.pitchindex < 7 then
    updateWavedata st (st.pitchindex + 1)
  else if key = Key.down ∧ st.pitchindex > 0 then
    updateWavedata st (st.pitchindex - 1)
  else if key = Key.backspace then
    { st with colorblind := (st.colorblind + 1).tmod 2 }
  else if key = Key.i then
    updateWavedata { st with instr := if st.instr = 2 then 0.5 else 2 } st.pitchindex
  else if key = Key.m then
    { st with mute := (st.mute + 1).tmod 2 }
  else st

/-- Folding `checkKey` over a sequence of key presses. -/
noncomputable def checkKeys (st : GameState) : List Key → GameState
  | [] => st
  | k :: rest => checkKeys (checkKey k st) rest

end Theremin

namespace SdlTest

/-- The `wavedata` struct of sdltest.c: phases and modulator amplitude are
`double`, `carrier_pitch` and `modulator_pitch` are `int`. -/
@[ext]
structure Wavedata where
  carrier_phase : ℝ
  modulator_phase : ℝ
  modulator_amplitude : ℝ
  carrier_pitch : ℤ
  modulator_pitch : ℤ

/-- The value stored into `dest[i]` by sdltest.c's fill loop (float
samples, no 32767 scaling):
`sin(modulator_amplitude*sin(modulator_pitch*(2*M_PI)*i/48000 + modulator_phase) + carrier_pitch*(2*M_PI)*i/48000 + carrier_phase)`. -/
noncomputable def sample (st : Wavedata) (i : ℕ) : ℝ :=
  Real.sin (st.modulator_amplitude *
      Real.sin (st.modulator_pitch * (2 * Real.pi) * i / 48000 + st.modulator_phase)
    + st.carrier_pitch * (2 * Real.pi) * i / 48000 + st.carrier_phase)

/-- The modulator-amplitude update at the end of sdltest.c's
`generateWaveform`:
`if (modulator_amplitude > 0) wave_data->modulator_amplitude -= 0.0066666666; else wave_data->modulator_amplitude = 0.4;`. -/
noncomputable def decayStep (a : ℝ) : ℝ :=
  if a > 0 then a - 0.0066666666 else 0.4

/-- sdltest.c's `generateWaveform`, as a function of the sample count
`size`: fill the buffer, reduce both phases with `fmod(..., 2*M_PI)`, then
apply the (active) modulator-amplitude decay. -/
noncomputable def generateWaveform (st : Wavedata) (size : ℕ) :
    List ℝ × Wavedata :=
  ((List.range size).map (sample st),
   { st with
     carrier_phase :=
       Theremin.cfmod (st.carrier_pitch * (2 * Real.pi) * size / 48000 + st.carrier_phase)
         (2 * Real.pi)
     modulator_phase :=
       Theremin.cfmod (st.modulator_pitch * (2 * Real.pi) * size / 48000 + st.modulator_phase)
         (2 * Real.pi)
     modulator_amplitude := decayStep st.modulator_amplitude })

/-- The byte-level callback interface of sdltest.c:
`int size = len/sizeof(float)` with `sizeof(float) = 4`. -/
noncomputable def generateWaveformBytes (st : Wavedata) (len : ℕ) :
    List ℝ × Wavedata :=
  generateWaveform st (len / 4)

/-- The `wavedata` initialised in sdltest.c's `main`. -/
noncomputable def initWavedata : Wavedata where
  carrier_phase := 0
  modulator_phase := 0
  modulator_amplitude := 0.4
  carrier_pitch := 1000
  modulator_pitch := 500

end SdlTest

/-! ## Helper lemmas -/

namespace Theremin

theorem TAU_pos : 0 < TAU := by
  unfold TAU
  positivity

theorem pitches_nonneg (i : ℤ) : 0 ≤ pitches i := by
  unfold pitches
  split_ifs <;> norm_num

theorem rtrunc_of_nonneg {x : ℝ} (hx : 0 ≤ x) : rtrunc x = ⌊x⌋ := by
  unfold rtrunc
  rw [if_pos hx]

theorem cfmod_eq_fract {x y : ℝ} (hx : 0 ≤ x) (hy : 0 < y) :
    cfmod x y = y * Int.fract (x / y) := by
  unfold cfmod
  rw [rtrunc_of_nonneg (div_nonneg hx hy.le), Int.fract]
  have hy0 : y ≠ 0 := ne_of_gt hy
  field_simp

theorem cfmod_nonneg {x y : ℝ} (hx : 0 ≤ x) (hy : 0 < y) : 0 ≤ cfmod x y := by
  rw [cfmod_eq_fract hx hy]
  exact mul_nonneg hy.le (Int.fract_nonneg _)

theorem cfmod_lt {x y : ℝ} (hx : 0 ≤ x) (hy : 0 < y) : cfmod x y < y := by
  rw [cfmod_eq_fract hx hy]
  calc y * Int.fract (x / y) < y * 1 := by
        exact mul_lt_mul_of_pos_left (Int.fract_lt_one _) hy
    _ = y := mul_one y

theorem cfmod_eq_self {x y : ℝ} (hx : 0 ≤ x) (hxy : x < y) : cfmod x y = x := by
  have hy : 0 < y := lt_of_le_of_lt hx hxy
  unfold cfmod
  rw [rtrunc_of_nonneg (div_nonneg hx hy.le)]
  rw [Int.floor_eq_zero_iff.2 ⟨div_nonneg hx hy.le, (div_lt_one hy).2 hxy⟩]
  simp

/-- Adding a `cfmod`-reduced quantity inside `sin` is the same as adding the
unreduced quantity: `cfmod` subtracts an integer multiple of `2π`. -/
theorem sin_add_cfmod (a x : ℝ) :
    Real.sin (a + cfmod x TAU) = Real.sin (a + x) := by
  unfold cfmod
  have h := Real.sin_add_int_mul_two_pi (a + x) (-(rtrunc (x / TAU)))
  rw [← h]
  congr 1
  push_cast
  unfold TAU
  ring

theorem generateWaveform_buffer (st : GameState) (size : ℕ) :
    (generateWaveform st size).1 = (List.range size).map (sample st) := rfl

theorem generateWaveform_carrier_phase (st : GameState) (size : ℕ) :
    (generateWaveform st size).2.carrier_phase
      = cfmod (c_pitch st * TAU * size / 48000 + st.carrier_phase) TAU := rfl

theorem generateWaveform_modulator_phase (st : GameState) (size : ℕ) :
    (generateWaveform st size).2.modulator_phase
      = cfmod (m_pitch st * TAU * size / 48000 + st.modulator_phase) TAU := rfl

theorem generateWaveform_amplitude (st : GameState) (size : ℕ) :
    (generateWaveform st size).2.modulator_amplitude = st.modulator_amplitude := rfl

theorem generateWaveform_pitchindex (st : GameState) (size : ℕ) :
    (generateWaveform st size).2.pitchindex = st.pitchindex := rfl

theorem generateWaveform_instr (st : GameState) (size : ℕ) :
    (generateWaveform st size).2.instr = st.instr := rfl

/-- One render call maps nonnegative phases into `[0, TAU)` (the pitch
table is nonnegative, so with `0 ≤ instr` the `fmod` argument is
nonnegative). -/
theorem render_phase_bounds (st : GameState) (size : ℕ) (hinstr : 0 ≤ st.instr)
    (hc : 0 ≤ st.carrier_phase) (hm : 0 ≤ st.modulator_phase) :
    (0 ≤ (generateWaveform st size).2.carrier_phase
      ∧ (generateWaveform st size).2.carrier_phase < TAU)
    ∧ (0 ≤ (generateWaveform st size).2.modulator_phase
      ∧ (generateWaveform st size).2.modulator_phase < TAU) := by
  have hcp : 0 ≤ c_pitch st := pitches_nonneg _
  have hmp : 0 ≤ m_pitch st := mul_nonneg hinstr hcp
  have hT : 0 ≤ TAU := TAU_pos.le
  have hargc : 0 ≤ c_pitch st * TAU * size / 48000 + st.carrier_phase := by
    have : 0 ≤ c_pitch st * TAU * size / 48000 :=
      div_nonneg (mul_nonneg (mul_nonneg hcp hT) (Nat.cast_nonneg size)) (by norm_num)
    linarith
  have hargm : 0 ≤ m_pitch st * TAU * size / 48000 + st.modulator_phase := by
    have : 0 ≤ m_pitch st * TAU * size / 48000 :=
      div_nonneg (mul_nonneg (mul_nonneg hmp hT) (Nat.cast_nonneg size)) (by norm_num)
    linarith
  rw [generateWaveform_carrier_phase, generateWaveform_modulator_phase]
  exact ⟨⟨cfmod_nonneg hargc TAU_pos, cfmod_lt hargc TAU_pos⟩,
         ⟨cfmod_nonneg hargm TAU_pos, cfmod_lt hargm TAU_pos⟩⟩

/-- The `[0, TAU)` phase invariant is preserved by any sequence of render
calls. -/
theorem renderCalls_phase_bounds (sizes : List ℕ) :
    ∀ st : GameState, 0 ≤ st.instr →
    0 ≤ st.carrier_phase → st.carrier_phase < TAU →
    0 ≤ st.modulator_phase → st.modulator_phase < TAU →
    (0 ≤ (renderCalls st sizes).carrier_phase
      ∧ (renderCalls st sizes).carrier_phase < TAU)
    ∧ (0 ≤ (renderCalls st sizes).modulator_phase
      ∧ (renderCalls st sizes).modulator_phase < TAU) := by
  induction sizes with
  | nil =>
    intro st _ hc1 hc2 hm1 hm2
    exact ⟨⟨hc1, hc2⟩, ⟨hm1, hm2⟩⟩
  | cons size rest ih =>
    intro st hinstr hc1 _ hm1 _
    have h := render_phase_bounds st size hinstr hc1 hm1
    have hinstr2 : 0 ≤ (generateWaveform st size).2.instr := by
      rw [generateWaveform_instr]
      exact hinstr
    exact ih (generateWaveform st size).2 hinstr2 h.1.1 h.1.2 h.2.1 h.2.2

/-- Samples of the state left behind by a render of `S` samples continue
the waveform: sample `i` of the next buffer is sample `S + i` of one long
render. -/
theorem sample_after_render (st : GameState) (S i : ℕ) :
    sample (generateWaveform st S).2 i = sample st (S + i) := by
  show Real.sin (st.modulator_amplitude *
      Real.sin (m_pitch st * TAU * i / 48000
        + cfmod (m_pitch st * TAU * S / 48000 + st.modulator_phase) TAU)
    + c_pitch st * TAU * i / 48000
    + cfmod (c_pitch st * TAU * S / 48000 + st.carrier_phase) TAU) * 32767
    = sample st (S + i)
  rw [sin_add_cfmod, sin_add_cfmod]
  have hm : m_pitch st * TAU * (i : ℝ) / 48000
        + (m_pitch st * TAU * (S : ℝ) / 48000 + st.modulator_phase)
      = m_pitch st * TAU * ((S + i : ℕ) : ℝ) / 48000 + st.modulator_phase := by
    push_cast
    ring
  rw [hm]
  unfold sample
  congr 1
  congr 1
  push_cast
  ring

/-- Sample `0` of the initial state: the sine arguments collapse to `0`, so
the sample is `sin(0.4 * sin 0 + 0) * 32767 = 0`. -/
theorem init_sample_zero : sample initState 0 = 0 := by
  unfold sample initState
  norm_num

theorem init_first_sample :
    ((generateWaveform initState 800).1)[0]? = some 0 := by
  rw [generateWaveform_buffer, List.getElem?_map,
    List.getElem?_range (by norm_num : (0:ℕ) < 800)]
  simp [init_sample_zero]

/-! ## Claim C1 -/

/-- Claim C1, counterexample to the final clause: from the initial state
(`pitchIndex = 0`, `instrumentRatio = 2`, `modulatorAmplitude = 0.4`,
phases `0`), the first sample of an 800-sample render is
`sin(0.4 * sin 0 + 0) * 32767 = 0`, not `32767 * sin 0.4`: the claim's own
per-sample formula evaluates to `0` at `i = 0`. -/
theorem first_sample_ne_scaled_sin :
    ((generateWaveform initState 800).1)[0]? ≠ some (32767 * Real.sin 0.4) := by
  rw [init_first_sample]
  intro h
  have h0 : (0 : ℝ) = 32767 * Real.sin 0.4 := Option.some.inj h
  have hpos : 0 < Real.sin 0.4 :=
    Real.sin_pos_of_pos_of_lt_pi (by norm_num) (by nlinarith [Real.pi_gt_three])
  nlinarith

/-- Claim C1 (amended): for every state with `pitchIndex` in range, each of
the `S` samples written by `generateWaveform` equals
`32767 * sin(modAmp * sin(2π * (instr * pitches[pitchIndex]) * i / 48000 + modPhase) + 2π * pitches[pitchIndex] * i / 48000 + carrierPhase)`;
from the initial state, the first sample of an 800-sample render equals
`32767 * sin(0.4 * sin 0 + 0) = 0` (the spec's claimed value `sin 0.4`
scaled is wrong: the modulator contributes `0.4 * sin 0 = 0` at `i = 0`). -/
theorem sample_formula_and_first_sample_zero (st : GameState) (S i : ℕ)
    (h0 : 0 ≤ st.pitchindex) (h8 : st.pitchindex < 8) (hi : i < S) :
    ((generateWaveform st S).1)[i]?
      = some (32767 * Real.sin (st.modulator_amplitude *
          Real.sin (2 * Real.pi * (st.instr * pitches st.pitchindex) * i / 48000
            + st.modulator_phase)
        + 2 * Real.pi * pitches st.pitchindex * i / 48000 + st.carrier_phase))
    ∧ ((generateWaveform initState 800).1)[0]?
      = some (32767 * Real.sin (0.4 * Real.sin 0 + 0))
    ∧ ((generateWaveform initState 800).1)[0]? = some 0 := by
  refine ⟨?_, ?_, init_first_sample⟩
  · rw [generateWaveform_buffer, List.getElem?_map, List.getElem?_range hi]
    have hs : sample st i
        = 32767 * Real.sin (st.modulator_amplitude *
            Real.sin (2 * Real.pi * (st.instr * pitches st.pitchindex) * i / 48000
              + st.modulator_phase)
          + 2 * Real.pi * pitches st.pitchindex * i / 48000 + st.carrier_phase) := by
      unfold sample
      have hinner : m_pitch st * TAU * (i : ℝ) / 48000 + st.modulator_phase
          = 2 * Real.pi * (st.instr * pitches st.pitchindex) * (i : ℝ) / 48000
            + st.modulator_phase := by
        unfold m_pitch c_pitch TAU
        ring
      rw [hinner]
      unfold c_pitch TAU
      ring_nf
    simp [hs]
  · rw [init_first_sample]
    norm_num

/-- Claim C1, witness: the amended theorem applied at the initial state,
`S = 800`, `i = 0`. -/
theorem sample_formula_witness :
    (0 ≤ initState.pitchindex ∧ initState.pitchindex < 8 ∧ (0:ℕ) < 800)
    ∧ ((generateWaveform initState 800).1)[0]? = some 0 :=
  ⟨⟨by norm_num [initState], by norm_num [initState], by norm_num⟩,
   (sample_formula_and_first_sample_zero initState 800 0 (by norm_num [initState])
     (by norm_num [initState]) (by norm_num)).2.2⟩

/-! ## Claim C2 -/

/-- Claim C2: after every call of `generateWaveform` with sample count `S`,
on any state whatever its old phases, the carrier phase equals
`(old + 2π * carrierPitch * S / 48000) mod 2π` and the modulator phase
equals `(old + 2π * modulatorPitch * S / 48000) mod 2π`, with the pitches
read by that same call; consequently, starting from phases `0` (with the
nonnegative `instr` of the data model), the phases remain in `[0, 2π)`
after any sequence of render calls. -/
theorem phase_update_formula_and_range (st : GameState) (S : ℕ) :
    ((generateWaveform st S).2.carrier_phase
        = cfmod (st.carrier_phase + 2 * Real.pi * c_pitch st * S / 48000) TAU
      ∧ (generateWaveform st S).2.modulator_phase
        = cfmod (st.modulator_phase + 2 * Real.pi * m_pitch st * S / 48000) TAU)
    ∧ (0 ≤ st.instr → st.carrier_phase = 0 → st.modulator_phase = 0 →
        ∀ sizes : List ℕ,
          (0 ≤ (renderCalls st sizes).carrier_phase
            ∧ (renderCalls st sizes).carrier_phase < TAU)
          ∧ (0 ≤ (renderCalls st sizes).modulator_phase
            ∧ (renderCalls st sizes).modulator_phase < TAU)) := by
  constructor
  · constructor
    · rw [generateWaveform_carrier_phase]
      congr 1
      unfold TAU
      ring
    · rw [generateWaveform_modulator_phase]
      congr 1
      unfold TAU
      ring
  · intro hinstr hc hm sizes
    exact renderCalls_phase_bounds sizes st hinstr (le_of_eq hc.symm)
      (hc ▸ TAU_pos) (le_of_eq hm.symm) (hm ▸ TAU_pos)

/-- Claim C2, witness: the theorem applied at the initial state with one
800-sample render call, discharging the invariant part's hypotheses
there. -/
theorem phase_update_witness :
    (generateWaveform initState 800).2.carrier_phase
      = cfmod (initState.carrier_phase
          + 2 * Real.pi * c_pitch initState * ((800:ℕ):ℝ) / 48000) TAU
    ∧ (0 ≤ initState.instr ∧ initState.carrier_phase = 0
        ∧ initState.modulator_phase = 0)
    ∧ (0 ≤ (renderCalls initState [800]).carrier_phase
        ∧ (renderCalls initState [800]).carrier_phase < TAU) :=
  ⟨(phase_update_formula_and_range initState 800).1.1,
   ⟨by norm_num [initState], rfl, rfl⟩,
   ((phase_update_formula_and_range initState 800).2 (by norm_num [initState])
      rfl rfl [800]).1⟩

/-! ## Claim C3 -/

/-- Claim C3: with constant pitch and constant buffer length `S`, two
consecutive renders produce exactly the sample sequence of one render of
length `2S`; in particular the first sample of the second buffer is sample
`S` of the long buffer (click-free buffer boundaries). -/
theorem render_split_continuity (st : GameState) (S : ℕ) (hS : 0 < S)
    (h0 : 0 ≤ st.pitchindex) (h8 : st.pitchindex < 8)
    (hc0 : 0 ≤ st.carrier_phase) (hcT : st.carrier_phase < TAU)
    (hm0 : 0 ≤ st.modulator_phase) (hmT : st.modulator_phase < TAU) :
    (generateWaveform st S).1 ++ (generateWaveform (generateWaveform st S).2 S).1
      = (generateWaveform st (2 * S)).1
    ∧ ((generateWaveform (generateWaveform st S).2 S).1)[0]?
      = ((generateWaveform st (2 * S)).1)[S]? := by
  have h2 : (List.range S).map (sample (generateWaveform st S).2)
      = (List.range S).map (sample st ∘ fun i => S + i) := by
    apply List.map_congr_left
    intro i _
    simp only [Function.comp_apply]
    exact sample_after_render st S i
  constructor
  · rw [generateWaveform_buffer, generateWaveform_buffer, generateWaveform_buffer]
    rw [two_mul, List.range_add, List.map_append, List.map_map, h2]
  · rw [generateWaveform_buffer, generateWaveform_buffer]
    rw [List.getElem?_map, List.getElem?_map, List.getElem?_range hS,
      List.getElem?_range (by omega : S < 2 * S), Option.map_some',
      Option.map_some', sample_after_render]
    rw [Nat.add_zero]

/-- Claim C3, witness: the theorem applied at the initial state with
`S = 800`. -/
theorem render_split_witness :
    ((0:ℕ) < 800 ∧ 0 ≤ initState.carrier_phase ∧ initState.carrier_phase < TAU)
    ∧ (generateWaveform initState 800).1
        ++ (generateWaveform (generateWaveform initState 800).2 800).1
      = (generateWaveform initState (2 * 800)).1 :=
  ⟨⟨by norm_num, le_refl 0, TAU_pos⟩,
   (render_split_continuity initState 800 (by norm_num) (by norm_num [initState])
     (by norm_num [initState]) (le_refl 0) TAU_pos (le_refl 0) TAU_pos).1⟩

/-! ## Claim C4 -/

/-- Any single key press keeps `pitchindex` within `[0, 7]`. -/
theorem checkKey_pitch_bounded (k : Key) (st : GameState)
    (h0 : 0 ≤ st.pitchindex) (h7 : st.pitchindex ≤ 7) :
    0 ≤ (checkKey k st).pitchindex ∧ (checkKey k st).pitchindex ≤ 7 := by
  cases k <;> simp [checkKey, updateWavedata] <;>
    first
    | exact ⟨h0, h7⟩
    | (split_ifs <;> (try simp [updateWavedata]) <;> omega)

/-- Any sequence of key presses keeps `pitchindex` within `[0, 7]`. -/
theorem checkKeys_pitch_bounded (keys : List Key) :
    ∀ st : GameState, 0 ≤ st.pitchindex → st.pitchindex ≤ 7 →
    0 ≤ (checkKeys st keys).pitchindex ∧ (checkKeys st keys).pitchindex ≤ 7 := by
  induction keys with
  | nil => exact fun st h0 h7 => ⟨h0, h7⟩
  | cons k rest ih =>
    intro st h0 h7
    have h := checkKey_pitch_bounded k st h0 h7
    exact ih (checkKey k st) h.1 h.2

/-- Claim C4: UP at index 7 and DOWN at index 0 are no-ops; otherwise UP
and DOWN move the pitch index by exactly `+1` / `-1`; from the initial
index `0`, every key sequence keeps the index within `[0, 7]`. -/
theorem pitch_clamp :
    (∀ st : GameState, st.pitchindex = 7 → (checkKey Key.up st).pitchindex = 7)
    ∧ (∀ st : GameState, st.pitchindex = 0 → (checkKey Key.down st).pitchindex = 0)
    ∧ (∀ st : GameState, st.pitchindex < 7 →
        (checkKey Key.up st).pitchindex = st.pitchindex + 1)
    ∧ (∀ st : GameState, 0 < st.pitchindex →
        (checkKey Key.down st).pitchindex = st.pitchindex - 1)
    ∧ (∀ st : GameState, st.pitchindex = 0 → ∀ keys : List Key,
        0 ≤ (checkKeys st keys).pitchindex ∧ (checkKeys st keys).pitchindex ≤ 7) := by
  refine ⟨?_, ?_, ?_, ?_, ?_⟩
  · intro st h
    simp [checkKey, updateWavedata, h]
  · intro st h
    simp [checkKey, updateWavedata, h]
  · intro st h
    simp [checkKey, updateWavedata, h]
  · intro st h
    simp [checkKey, updateWavedata, h]
  · intro st h keys
    exact checkKeys_pitch_bounded keys st (le_of_eq h.symm) (by omega)

/-- Claim C4, witness: the theorem applied at the initial state (index 0):
DOWN is a no-op, UP moves to 1, and a concrete key sequence stays in
range. -/
theorem pitch_clamp_witness :
    (checkKey Key.down initState).pitchindex = 0
    ∧ (checkKey Key.up initState).pitchindex = initState.pitchindex + 1
    ∧ 0 ≤ (checkKeys initState [Key.up, Key.down, Key.down]).pitchindex
    ∧ (checkKeys initState [Key.up, Key.down, Key.down]).pitchindex ≤ 7 :=
  ⟨pitch_clamp.2.1 initState rfl,
   pitch_clamp.2.2.1 initState (by norm_num [initState]),
   (pitch_clamp.2.2.2.2 initState rfl [Key.up, Key.down, Key.down]).1,
   (pitch_clamp.2.2.2.2 initState rfl [Key.up, Key.down, Key.down]).2⟩

end Theremin

/-! ## Claim C5 -/

namespace SdlTest

/-- Closed form for the decay iterates from the maximum `0.4`: through the
first 61 calls the amplitude is `0.4 - k * 0.0066666666` (the value stays
strictly positive through call 60, since `0.4 - 60 * 0.0066666666 =
0.000000004 > 0`, so the decrement branch keeps firing). -/
theorem decay_closed_form :
    ∀ k : ℕ, k ≤ 61 → decayStep^[k] (0.4 : ℝ) = 0.4 - k * 0.0066666666 := by
  intro k
  induction k with
  | zero =>
    intro _
    norm_num
  | succ n ih =>
    intro hn
    have hpos : (0:ℝ) < 0.4 - n * 0.0066666666 := by
      have hn60 : (n:ℝ) ≤ 60 := by exact_mod_cast (by omega : n ≤ 60)
      nlinarith
    rw [Function.iterate_succ_apply', ih (by omega)]
    unfold decayStep
    rw [if_pos hpos]
    push_cast
    ring

/-- Claim C5, counterexample: the decrement applied by sdltest.c's
`generateWaveform` to a positive amplitude is the literal `0.0066666666`,
which is not `0.4 / 60`; and after `decayDurationSeconds ×
framesPerSecond = 60` calls from the maximum the amplitude is
`0.000000004`, not yet reset, so the cycle length is not 60. -/
theorem decay_claim_counterexample :
    (generateWaveform initWavedata 800).2.modulator_amplitude ≠ 0.4 - 0.4 / 60
    ∧ decayStep^[60] (0.4 : ℝ) ≠ 0.4 := by
  constructor
  · show decayStep initWavedata.modulator_amplitude ≠ 0.4 - 0.4 / 60
    unfold decayStep initWavedata
    norm_num
  · rw [decay_closed_form 60 (by norm_num)]
    norm_num

/-- Claim C5 (amended): on every call of sdltest.c's `generateWaveform`
the amplitude is updated by `decayStep`: a positive amplitude is
decremented by the literal `0.0066666666` (an approximation of, but not
equal to, `0.4/60`), and a non-positive amplitude is reset to the maximum
`0.4`.  From the initial `0.4` the amplitude strictly decreases on each of
the first 61 calls, is negative after call 61, and resets to `0.4` on call
62: the cycle length is 62 buffer calls, not 60.  In theremingame.c the
decay code is commented out and `generateWaveform` leaves the amplitude
unchanged. -/
theorem decay_amended :
    (∀ (st : Wavedata) (S : ℕ),
        (generateWaveform st S).2.modulator_amplitude
          = decayStep st.modulator_amplitude)
    ∧ (∀ a : ℝ, 0 < a → decayStep a = a - 0.0066666666)
    ∧ (∀ a : ℝ, a ≤ 0 → decayStep a = 0.4)
    ∧ (∀ k : ℕ, k ≤ 60 → decayStep^[k + 1] (0.4:ℝ) < decayStep^[k] (0.4:ℝ))
    ∧ decayStep^[61] (0.4 : ℝ) < 0
    ∧ decayStep^[62] (0.4 : ℝ) = 0.4
    ∧ (∀ (st : Theremin.GameState) (S : ℕ),
        (Theremin.generateWaveform st S).2.modulator_amplitude
          = st.modulator_amplitude) := by
  have h61 : decayStep^[61] (0.4 : ℝ) < 0 := by
    rw [decay_closed_form 61 (by norm_num)]
    norm_num
  have hneg : ∀ a : ℝ, a ≤ 0 → decayStep a = 0.4 := by
    intro a ha
    unfold decayStep
    rw [if_neg (by linarith)]
  refine ⟨fun st S => rfl, ?_, hneg, ?_, h61, ?_, fun st S => rfl⟩
  · intro a ha
    unfold decayStep
    rw [if_pos ha]
  · intro k hk
    rw [decay_closed_form (k + 1) (by omega), decay_closed_form k (by omega)]
    push_cast
    norm_num
  · rw [show (62:ℕ) = 61 + 1 by norm_num, Function.iterate_succ_apply']
    exact hneg _ (le_of_lt h61)

/-- Claim C5, witness: the amended theorem applied at amplitude `0.4` (the
positive branch), `-1` (the reset branch), and the first decay step. -/
theorem decay_amended_witness :
    decayStep (0.4 : ℝ) = 0.4 - 0.0066666666
    ∧ decayStep (-1 : ℝ) = 0.4
    ∧ decayStep^[0 + 1] (0.4:ℝ) < decayStep^[0] (0.4:ℝ) :=
  ⟨decay_amended.2.1 0.4 (by norm_num),
   decay_amended.2.2.1 (-1) (by norm_num),
   decay_amended.2.2.2.1 0 (by norm_num)⟩

end SdlTest

/-! ## Claim C6 -/

namespace Theremin

theorem checkKey_i_instr (st : GameState) :
    (checkKey Key.i st).instr = if st.instr = 2 then 0.5 else 2 := by
  simp [checkKey, updateWavedata]

theorem checkKey_i_pitchindex (st : GameState) :
    (checkKey Key.i st).pitchindex = st.pitchindex := by
  simp [checkKey, updateWavedata]

/-- Claim C6: the 'i' key swaps `instr` between exactly the presets `2.0`
(piano) and `0.5` (guitar), and the modulator pitch used by the next
render call is recomputed as the new `instr` times
`pitches[pitchindex]` — the stored `modulator_pitch` field is never read
by the render path. -/
theorem instrument_toggle (st : GameState)
    (h : st.instr = 2 ∨ st.instr = 0.5) :
    ((checkKey Key.i st).instr = if st.instr = 2 then 0.5 else 2)
    ∧ ((checkKey Key.i st).instr = 2 ∨ (checkKey Key.i st).instr = 0.5)
    ∧ (checkKey Key.i st).instr ≠ st.instr
    ∧ m_pitch (checkKey Key.i st)
      = (checkKey Key.i st).instr * pitches st.pitchindex
    ∧ (∀ v : ℤ, m_pitch { st with modulator_pitch := v } = m_pitch st) := by
  refine ⟨checkKey_i_instr st, ?_, ?_, ?_, fun v => rfl⟩
  · rw [checkKey_i_instr]
    rcases h with h | h <;> rw [h] <;> norm_num
  · rw [checkKey_i_instr]
    rcases h with h | h <;> rw [h] <;> norm_num
  · show m_pitch (checkKey Key.i st) = _
    unfold m_pitch c_pitch
    rw [checkKey_i_pitchindex]

/-- Claim C6, witness: toggling the instrument at the initial state (piano,
`instr = 2`). -/
theorem instrument_toggle_witness :
    ((checkKey Key.i initState).instr = if initState.instr = 2 then 0.5 else 2)
    ∧ m_pitch (checkKey Key.i initState)
      = (checkKey Key.i initState).instr * pitches initState.pitchindex :=
  ⟨(instrument_toggle initState (Or.inl rfl)).1,
   (instrument_toggle initState (Or.inl rfl)).2.2.2.1⟩

/-! ## Claim C7 -/

/-- Claim C7: a render call with sample count `0` writes no samples and
leaves every field of the state unchanged (for phases already reduced into
`[0, TAU)`, `fmod` returns them unchanged). -/
theorem render_zero_noop (st : GameState)
    (hc0 : 0 ≤ st.carrier_phase) (hcT : st.carrier_phase < TAU)
    (hm0 : 0 ≤ st.modulator_phase) (hmT : st.modulator_phase < TAU) :
    (generateWaveform st 0).1 = [] ∧ (generateWaveform st 0).2 = st := by
  refine ⟨rfl, ?_⟩
  have hc : c_pitch st * TAU * ((0:ℕ):ℝ) / 48000 + st.carrier_phase
      = st.carrier_phase := by
    norm_num
  have hm : m_pitch st * TAU * ((0:ℕ):ℝ) / 48000 + st.modulator_phase
      = st.modulator_phase := by
    norm_num
  ext
  · rw [generateWaveform_carrier_phase, hc]
    exact cfmod_eq_self hc0 hcT
  · rw [generateWaveform_modulator_phase, hm]
    exact cfmod_eq_self hm0 hmT
  all_goals rfl

/-- Claim C7, witness: the theorem applied at the initial state. -/
theorem render_zero_noop_witness :
    (generateWaveform initState 0).1 = []
    ∧ (generateWaveform initState 0).2 = initState :=
  render_zero_noop initState (le_refl 0) TAU_pos (le_refl 0) TAU_pos

/-! ## Claim C8 -/

/-- Claim C8: field-ownership split.  `generateWaveform` changes only its
render-owned fields (here: the two phases; the amplitude decay is
commented out, so the amplitude is also unchanged) and never the
input-owned fields `pitchindex`, `instr`, `mute`, `colorblind`, `quit` or
the stored `modulator_pitch`; `checkKey` never changes the render-owned
fields `carrier_phase`, `modulator_phase`, `modulator_amplitude`. -/
theorem field_ownership :
    (∀ (st : GameState) (S : ℕ),
        (generateWaveform st S).2.modulator_amplitude = st.modulator_amplitude
        ∧ (generateWaveform st S).2.pitchindex = st.pitchindex
        ∧ (generateWaveform st S).2.modulator_pitch = st.modulator_pitch
        ∧ (generateWaveform st S).2.instr = st.instr
        ∧ (generateWaveform st S).2.colorblind = st.colorblind
        ∧ (generateWaveform st S).2.mute = st.mute
        ∧ (generateWaveform st S).2.quit = st.quit)
    ∧ (∀ (k : Key) (st : GameState),
        (checkKey k st).carrier_phase = st.carrier_phase
        ∧ (checkKey k st).modulator_phase = st.modulator_phase
        ∧ (checkKey k st).modulator_amplitude = st.modulator_amplitude) := by
  refine ⟨fun st S => ⟨rfl, rfl, rfl, rfl, rfl, rfl, rfl⟩, ?_⟩
  intro k st
  cases k <;> simp [checkKey, updateWavedata] <;> split_ifs <;>
    simp [updateWavedata]

/-! ## Claim C9 -/

/-- Claim C9: every sample written by theremingame.c's `generateWaveform`
is `sin(·) * 32767` and hence lies in `[-32767, 32767]`: the conversion to
a signed 16-bit value cannot overflow, for every state and buffer
length. -/
theorem sample_bounded :
    (∀ (st : GameState) (S : ℕ),
        (generateWaveform st S).1 = (List.range S).map (sample st))
    ∧ ∀ (st : GameState) (i : ℕ),
        sample st i ∈ Set.Icc (-32767 : ℝ) 32767 := by
  refine ⟨fun st S => rfl, fun st i => ?_⟩
  unfold sample
  constructor
  · nlinarith [Real.neg_one_le_sin (st.modulator_amplitude *
      Real.sin (m_pitch st * TAU * i / 48000 + st.modulator_phase)
      + c_pitch st * TAU * i / 48000 + st.carrier_phase)]
  · nlinarith [Real.sin_le_one (st.modulator_amplitude *
      Real.sin (m_pitch st * TAU * i / 48000 + st.modulator_phase)
      + c_pitch st * TAU * i / 48000 + st.carrier_phase)]

/-! ## Claim C10 -/

theorem checkKey_m_eq (st : GameState) :
    checkKey Key.m st = { st with mute := (st.mute + 1).tmod 2 } := by
  simp [checkKey]

theorem checkKey_backspace_eq (st : GameState) :
    checkKey Key.backspace st
      = { st with colorblind := (st.colorblind + 1).tmod 2 } := by
  simp [checkKey]

theorem checkKey_i_eq (st : GameState) :
    checkKey Key.i st
      = { st with instr := if st.instr = 2 then 0.5 else 2 } := by
  ext <;> simp [checkKey, updateWavedata]

/-- Claim C10: on every state of the data model (boolean `mute` and
`colorblind` flags, `instr` one of the two presets), pressing 'm' twice,
BACKSPACE twice, or 'i' twice restores the whole state exactly. -/
theorem toggles_involutive (st : GameState)
    (hmute : st.mute = 0 ∨ st.mute = 1)
    (hcb : st.colorblind = 0 ∨ st.colorblind = 1)
    (hinstr : st.instr = 2 ∨ st.instr = 0.5) :
    checkKey Key.m (checkKey Key.m st) = st
    ∧ checkKey Key.backspace (checkKey Key.backspace st) = st
    ∧ checkKey Key.i (checkKey Key.i st) = st := by
  refine ⟨?_, ?_, ?_⟩
  · rcases hmute with h | h <;> ext <;> simp [checkKey_m_eq, h] <;> decide
  · rcases hcb with h | h <;> ext <;> simp [checkKey_backspace_eq, h] <;> decide
  · rcases hinstr with h | h <;> ext <;> simp [checkKey_i_eq, h]

/-- Claim C10, witness: the theorem applied at the initial state. -/
theorem toggles_involutive_witness :
    checkKey Key.m (checkKey Key.m initState) = initState
    ∧ checkKey Key.backspace (checkKey Key.backspace initState) = initState
    ∧ checkKey Key.i (checkKey Key.i initState) = initState :=
  toggles_involutive initState (Or.inl rfl) (Or.inl rfl) (Or.inl rfl)

end Theremin
